import Mathlib

/-!
Verification development for the Numerov shooting-method harmonic
oscillator solver (`src/reference/harmonic1.c`, with the f-array /
turning-point / grid code shared verbatim with `src/reference/harmonic0.c`).
All machine `double` arithmetic is modelled by real arithmetic; arrays of
`mesh+1` doubles are modelled as functions `ℕ → ℝ` read on `0..mesh`.
-/

noncomputable section

namespace Harmonic

/-- The C test `v != copysign(v, s)`: true when `v` is nonzero and its sign
differs from the sign of `s` (zero `s` counting as positive, as the C
`copysign` sign bit of `+0.0` does). Used both for the f-array sign scan
(`f[i] != copysign(f[i], f[i-1])`) and for wavefunction node counting
(`y[i] != copysign(y[i], y[i+1])`). -/
def signDiff (v s : ℝ) : Prop := (0 < v ∧ s < 0) ∨ (v < 0 ∧ 0 ≤ s)

instance (v s : ℝ) : Decidable (signDiff v s) := by
  unfold signDiff; infer_instance

/-- Raw Numerov prefactor `f[i] = ddx12 * 2 * (vpot[i] - e)`
(harmonic1.c lines 105 and 108). -/
def fraw (ddx12 : ℝ) (vpot : ℕ → ℝ) (e : ℝ) (i : ℕ) : ℝ :=
  ddx12 * (2 * (vpot i - e))

/-- The stored f-array before the `1 - f` transform: `f[0]` is the raw value
(the zero-perturbation runs only in the `i = 1..mesh` loop), and for
`i ≥ 1` an exactly-zero raw value is replaced by `1e-20`
(harmonic1.c lines 105-116). -/
def fpert (ddx12 : ℝ) (vpot : ℕ → ℝ) (e : ℝ) (i : ℕ) : ℝ :=
  match i with
  | 0 => fraw ddx12 vpot e 0
  | Nat.succ n =>
      if fraw ddx12 vpot e (n + 1) = 0 then 1e-20 else fraw ddx12 vpot e (n + 1)

/-- Index of the last sign change of `f` on `1..n`, `-1` when there is none
(the scan `if (f[i] != copysign(f[i], f[i-1])) icl = i;`,
harmonic1.c lines 106-121). -/
def iclAux (f : ℕ → ℝ) : ℕ → ℤ
  | 0 => -1
  | Nat.succ n => if signDiff (f (n + 1)) (f n) then ((n : ℤ) + 1) else iclAux f n

/-- The turning-point index computed from the perturbed f-array. -/
def iclOf (ddx12 : ℝ) (vpot : ℕ → ℝ) (e : ℝ) (mesh : ℕ) : ℤ :=
  iclAux (fpert ddx12 vpot e) mesh

/-- The coefficient consumed by the Numerov recursion, after the in-place
transform `f[i] = 1 - f[i]` (harmonic1.c lines 134-136). -/
def fnumOf (ddx12 : ℝ) (vpot : ℕ → ℝ) (e : ℝ) (i : ℕ) : ℝ :=
  1 - fpert ddx12 vpot e i

/-- Starting value `y[0]`: `1` for an even requested node count (even
wavefunction), `0` for an odd one. The evenness test is the C idiom
`2*hnodes == nodes` with `hnodes = nodes/2` in integer division
(harmonic1.c lines 144-160). -/
def y0Of (nodes : ℕ) : ℝ :=
  if 2 * (nodes / 2) = nodes then 1 else 0

/-- Starting value `y[1]`: for the even branch
`0.5 * (12 - f[0]*10) * y[0] / f[1]` (assuming `f[-1] = f[1]`), for the odd
branch `dx` (harmonic1.c lines 151-160). -/
def y1Of (f : ℕ → ℝ) (dx : ℝ) (nodes : ℕ) : ℝ :=
  if 2 * (nodes / 2) = nodes then 0.5 * (12 - f 0 * 10) * y0Of nodes / f 1 else dx

/-- Outward Numerov integration
`y[i+1] = ((12 - f[i]*10) * y[i] - f[i-1] * y[i-1]) / f[i+1]`
from the two starting values (harmonic1.c lines 165-167). The C loop fills
indices up to `icl`; indices of this function beyond `icl` are never read
from the final array. -/
def yOutAux (f : ℕ → ℝ) (y0 y1 : ℝ) : ℕ → ℝ
  | 0 => y0
  | 1 => y1
  | Nat.succ (Nat.succ n) =>
      ((12 - f (n + 1) * 10) * yOutAux f y0 y1 (n + 1) - f n * yOutAux f y0 y1 n)
        / f (n + 2)

/-- Number of node-count sign changes recorded at loop indices `i = 1..m`,
each testing `y[i] != copysign(y[i], y[i+1])` (harmonic1.c lines 164-170). -/
def ncrossAux (y : ℕ → ℝ) : ℕ → ℕ
  | 0 => 0
  | Nat.succ m => ncrossAux y m + if signDiff (y (m + 1)) (y (m + 2)) then 1 else 0

/-- The sign-change count of the outward integration, whose loop runs
`i = 1..icl-1`. -/
def ncrossOf (f : ℕ → ℝ) (dx : ℝ) (nodes : ℕ) (icl : ℕ) : ℕ :=
  ncrossAux (yOutAux f (y0Of nodes) (y1Of f dx nodes)) (icl - 1)

/-- The reported node count: `2*ncross` for the even branch, `2*ncross + 1`
for the odd branch (harmonic1.c lines 173-179). -/
def nctOf (f : ℕ → ℝ) (dx : ℝ) (nodes : ℕ) (icl : ℕ) : ℕ :=
  if 2 * (nodes / 2) = nodes then 2 * ncrossOf f dx nodes icl
  else 2 * ncrossOf f dx nodes icl + 1

/-- Inward Numerov integration indexed by distance `k` below `mesh`:
`k = 0` is `y[mesh] = dx`, `k = 1` is
`y[mesh-1] = (12 - 10*f[mesh]) * y[mesh] / f[mesh-1]` (the assumed
`y[mesh+1] = 0` dropping one term), and for larger `k` the in-loop step
`y[i-1] = ((12 - 10*f[i]) * y[i] - f[i+1] * y[i+1]) / f[i-1]`
(harmonic1.c lines 215-222). -/
def yInAux (f : ℕ → ℝ) (mesh : ℕ) (dx : ℝ) : ℕ → ℝ
  | 0 => dx
  | 1 => (12 - 10 * f mesh) * dx / f (mesh - 1)
  | Nat.succ (Nat.succ k) =>
      ((12 - 10 * f (mesh - (k + 1))) * yInAux f mesh dx (k + 1)
          - f (mesh - k) * yInAux f mesh dx k)
        / f (mesh - (k + 2))

/-- The inward branch value at grid index `i ≤ mesh`. -/
def yInOf (f : ℕ → ℝ) (mesh : ℕ) (dx : ℝ) (i : ℕ) : ℝ :=
  yInAux f mesh dx (mesh - i)

/-- The concatenated wavefunction after the matching rescale: outward values
below `icl`, and the inward branch multiplied by
`yicl = y_outward[icl] / y_inward[icl]` from `icl` up
(harmonic1.c lines 224-229). -/
def yMatch (f : ℕ → ℝ) (mesh : ℕ) (dx : ℝ) (y0 y1 : ℝ) (icl : ℕ) (i : ℕ) : ℝ :=
  if i < icl then yOutAux f y0 y1 i
  else yInOf f mesh dx i * (yOutAux f y0 y1 icl / yInOf f mesh dx icl)

/-- Running sum `Σ_{i=1}^{m} y[i] * y[i]` (harmonic1.c lines 234-237). -/
def sumSq (y : ℕ → ℝ) : ℕ → ℝ
  | 0 => 0
  | Nat.succ m => sumSq y m + y (m + 1) * y (m + 1)

/-- The squared normalization constant
`norm = dx * (2 * Σ_{i=1}^{mesh} y[i]^2 + y[0]^2)` (harmonic1.c line 238). -/
def normOf (dx : ℝ) (y : ℕ → ℝ) (mesh : ℕ) : ℝ :=
  dx * (2 * sumSq y mesh + y 0 * y 0)

/-- The matched wavefunction of a matching pass, built from the parity
starting values of the requested node count. -/
def yMatchOf (f : ℕ → ℝ) (mesh : ℕ) (dx : ℝ) (nodes : ℕ) (icl : ℕ) : ℕ → ℝ :=
  yMatch f mesh dx (y0Of nodes) (y1Of f dx nodes) icl

/-- The normalized wavefunction `y[i] / sqrt(norm)` written back over the
whole array by a matching pass (harmonic1.c lines 239-242). -/
def yNormOf (f : ℕ → ℝ) (mesh : ℕ) (dx : ℝ) (nodes : ℕ) (icl : ℕ) (i : ℕ) : ℝ :=
  yMatchOf f mesh dx nodes icl i / Real.sqrt (normOf dx (yMatchOf f mesh dx nodes icl) mesh)

/-- The first-derivative discontinuity at the matching point, computed on the
normalized array:
`djump = (y[icl+1] + y[icl-1] - (14 - 12*f[icl]) * y[icl]) / dx`
(harmonic1.c line 251). -/
def djumpOf (f : ℕ → ℝ) (mesh : ℕ) (dx : ℝ) (nodes : ℕ) (icl : ℕ) : ℝ :=
  (yNormOf f mesh dx nodes icl (icl + 1) + yNormOf f mesh dx nodes icl (icl - 1)
      - (14 - 12 * f icl) * yNormOf f mesh dx nodes icl icl)
    / dx

/-- The wavefunction array left behind by a pass that did not run matching:
the array is zeroed, then the outward integration fills `0..icl`
(harmonic1.c lines 138-170). -/
def yBracketOf (f : ℕ → ℝ) (dx : ℝ) (nodes : ℕ) (icl : ℕ) (i : ℕ) : ℝ :=
  if i ≤ icl then yOutAux f (y0Of nodes) (y1Of f dx nodes) i else 0

/-- The mutable solver state surviving from one pass of the shooting loop to
the next: the bisection bracket `(elw, eup)`, the trial energy `e`, the
wavefunction array `y`, and the last stored turning-point index `icl`. -/
@[ext]
structure St where
  elw : ℝ
  eup : ℝ
  e : ℝ
  y : ℕ → ℝ
  icl : ℕ

/-- The two fatal turning-point diagnostics, each of which makes the C
program `exit(1)` (harmonic1.c lines 123-130). -/
inductive Fatal where
  | tooFar : Fatal
  | noTp : Fatal
deriving DecidableEq

/-- One body of the shooting loop after the turning-point checks passed
(harmonic1.c lines 132-261): rebuild `f`, integrate outward, count nodes,
then either narrow the bracket on a node-count mismatch (bisection mode
only), or run the matching pass — inward integration, rescale,
normalization — followed, in bisection mode, by the `djump` bracket
narrowing. -/
def passCore (mesh : ℕ) (dx ddx12 : ℝ) (vpot : ℕ → ℝ) (nodes iterate : ℕ)
    (s : St) (icl : ℕ) : St :=
  let f := fnumOf ddx12 vpot s.e
  let nct := nctOf f dx nodes icl
  -- node-count bracket narrowing, `if (iterate > 1) { if (ncross != nodes) ... }`
  let b : ℝ × ℝ × ℝ :=
    if 1 < iterate ∧ nct ≠ nodes then
      if nodes < nct then (s.elw, s.e, 0.5 * (s.e + s.elw))
      else (s.e, s.eup, 0.5 * (s.eup + s.e))
    else (s.elw, s.eup, s.e)
  -- matching pass, `if (iterate == 1 || ncross == nodes) ...`
  if iterate = 1 ∨ nct = nodes then
    let yN := yNormOf f mesh dx nodes icl
    if 1 < iterate then
      let dj := djumpOf f mesh dx nodes icl
      if 0 < dj * yN icl then ⟨b.1, b.2.2, 0.5 * (b.2.2 + b.1), yN, icl⟩
      else ⟨b.2.2, b.2.1, 0.5 * (b.2.1 + b.2.2), yN, icl⟩
    else ⟨b.1, b.2.1, b.2.2, yN, icl⟩
  else ⟨b.1, b.2.1, b.2.2, yBracketOf (fnumOf ddx12 vpot s.e) dx nodes icl, icl⟩

/-- One full pass of the shooting loop: the f-array sign scan, the two fatal
turning-point checks in their source order — `icl >= mesh - 2` first, then
`icl < 1` (harmonic1.c lines 105-130) — then the pass body. -/
def pass (mesh : ℕ) (dx ddx12 : ℝ) (vpot : ℕ → ℝ) (nodes iterate : ℕ)
    (s : St) : Except Fatal St :=
  let ic := iclOf ddx12 vpot s.e mesh
  if (mesh : ℤ) - 2 ≤ ic then .error .tooFar
  else if ic < 1 then .error .noTp
  else .ok (passCore mesh dx ddx12 vpot nodes iterate s ic.toNat)

/-- The shooting loop
`for (kkk = 0; kkk <= iterate && eup-elw > 1.e-10; ++kkk)`
(harmonic1.c lines 97-263), with the remaining loop budget as fuel
(`iterate + 1` admissible passes, `kkk = 0..iterate`) and the number of
executed passes accumulated alongside the state. -/
def loopGo (mesh : ℕ) (dx ddx12 : ℝ) (vpot : ℕ → ℝ) (nodes iterate : ℕ) :
    ℕ → St → ℕ → Except Fatal (St × ℕ)
  | 0, s, cnt => .ok (s, cnt)
  | Nat.succ fuel, s, cnt =>
    if 1e-10 < s.eup - s.elw then
      match pass mesh dx ddx12 vpot nodes iterate s with
      | .error k => .error k
      | .ok s' => loopGo mesh dx ddx12 vpot nodes iterate fuel s' (cnt + 1)
    else .ok (s, cnt)

/-- Grid positions `x[i] = i * dx` with `dx = xmax / mesh`
(harmonic1.c lines 48 and 54-55). -/
def harmonicX (xmax : ℝ) (mesh : ℕ) (i : ℕ) : ℝ :=
  i * (xmax / mesh)

/-- Potential samples `vpot[i] = 0.5 * x[i] * x[i]` (harmonic1.c line 56).
The C code builds these arrays unconditionally for whatever `xmax` and
`mesh` were read; there is no parameter validation anywhere. -/
def harmonicV (xmax : ℝ) (mesh : ℕ) (i : ℕ) : ℝ :=
  0.5 * harmonicX xmax mesh i * harmonicX xmax mesh i

/-- The running minimum of `if (vpot[i] < elw) elw = vpot[i]` over
`i = 0..n`, seeded with `vpot[mesh]` (harmonic1.c lines 77-84). -/
def scanLow (v : ℕ → ℝ) (init : ℝ) : ℕ → ℝ
  | 0 => if v 0 < init then v 0 else init
  | Nat.succ n => if v (n + 1) < scanLow v init n then v (n + 1) else scanLow v init n

/-- The running maximum of `if (vpot[i] > eup) eup = vpot[i]` over
`i = 0..n`, seeded with `vpot[mesh]`. -/
def scanHigh (v : ℕ → ℝ) (init : ℝ) : ℕ → ℝ
  | 0 => if init < v 0 then v 0 else init
  | Nat.succ n => if scanHigh v init n < v (n + 1) then v (n + 1) else scanHigh v init n

/-- One whole eigenvalue search (harmonic1.c lines 75-263): initial bracket
from the potential extrema, then either bisection mode (`e == 0` input:
midpoint start, `iterate = 1000`) or single-fixed-energy mode (`iterate = 1`),
then the shooting loop with `iterate + 1` admissible passes. -/
def searchRun (mesh : ℕ) (xmax : ℝ) (nodes : ℕ) (etrial : ℝ) :
    Except Fatal (St × ℕ) :=
  let dx := xmax / mesh
  let ddx12 := dx * dx / 12
  let vpot := harmonicV xmax mesh
  let eup0 := scanHigh vpot (vpot mesh) mesh
  let elw0 := scanLow vpot (vpot mesh) mesh
  if etrial = 0 then
    loopGo mesh dx ddx12 vpot nodes 1000 (1000 + 1)
      ⟨elw0, eup0, 0.5 * (elw0 + eup0), fun _ => 0, 0⟩ 0
  else
    loopGo mesh dx ddx12 vpot nodes 1 (1 + 1) ⟨elw0, eup0, etrial, fun _ => 0, 0⟩ 0

/-- Grid positions expressed through the spacing alone, `x[i] = i * dx`;
with `dx = xmax / mesh` this is `harmonicX`. -/
def harmonicXd (dx : ℝ) (i : ℕ) : ℝ :=
  i * dx

/-- The source's `pi` constant, a literal in harmonic1.c line 15. -/
def piC : ℝ := 3.14159265358979323846

/-- Unnormalized classical density: zero from `icl` up, and below `icl`
`1 / sqrt(arg) / pi` when `arg = xmcl*xmcl - x[i]*x[i]` is positive with
`xmcl = sqrt(2*e)`, else zero (harmonic1.c lines 270-281). -/
def prawOf (x : ℕ → ℝ) (icl : ℕ) (e : ℝ) (i : ℕ) : ℝ :=
  if i < icl then
    let arg := Real.sqrt (2 * e) * Real.sqrt (2 * e) - x i * x i
    if 0 < arg then 1 / Real.sqrt arg / piC else 0
  else 0

/-- Partial sums `Σ_{i=0}^{n} dx * 2 * p[i]` of the unnormalized classical
density (harmonic1.c line 281). -/
def psumGo (dx : ℝ) (x : ℕ → ℝ) (icl : ℕ) (e : ℝ) : ℕ → ℝ
  | 0 => dx * 2 * prawOf x icl e 0
  | Nat.succ n => psumGo dx x icl e n + dx * 2 * prawOf x icl e (n + 1)

/-- The density normalizer `Σ_{i=0}^{icl-1} dx * 2 * p[i]` minus the doubly
counted origin term `dx * p[0]` (harmonic1.c lines 275-284). -/
def psumOf (dx : ℝ) (x : ℕ → ℝ) (icl : ℕ) (e : ℝ) : ℝ :=
  (match icl with
    | 0 => 0
    | Nat.succ _ => psumGo dx x icl e (icl - 1))
  - dx * prawOf x icl e 0

/-- The emitted classical density column: `p[i] / norm` below `icl`, zero
from `icl` up (harmonic1.c lines 285-288). -/
def pOf (dx : ℝ) (x : ℕ → ℝ) (icl : ℕ) (e : ℝ) (i : ℕ) : ℝ :=
  if i < icl then prawOf x icl e i / psumOf dx x icl e else prawOf x icl e i

/-- The parity sign for the mirrored `x < 0` half of the table:
`+1` when `hnodes << 1 == nodes`, `-1` otherwise (harmonic1.c lines 292-295). -/
def parityOf (nodes : ℕ) : ℝ :=
  if 2 * (nodes / 2) = nodes then 1 else -1

/-- A row of the `x > 0` half of the output table:
`x, y(x), y(x)^2, p(x), V(x)` (harmonic1.c lines 301-304). -/
def rowPos (dx : ℝ) (vpot : ℕ → ℝ) (s : St) (i : ℕ) : ℝ × ℝ × ℝ × ℝ × ℝ :=
  (harmonicXd dx i, s.y i, s.y i * s.y i, pOf dx (harmonicXd dx) s.icl s.e i, vpot i)

/-- A row of the mirrored `x < 0` half of the output table:
`-x, parity*y(x), y(x)^2, p(x), V(x)` (harmonic1.c lines 296-299). -/
def rowNeg (dx : ℝ) (vpot : ℕ → ℝ) (nodes : ℕ) (s : St) (i : ℕ) :
    ℝ × ℝ × ℝ × ℝ × ℝ :=
  (-harmonicXd dx i, parityOf nodes * s.y i, s.y i * s.y i,
    pOf dx (harmonicXd dx) s.icl s.e i, vpot i)

/-- The output table of a finished search: `none` when the search died on a
fatal turning-point diagnostic (the C program `exit(1)`s before writing any
row), otherwise the positive-half row function of the final state. -/
def emitted (dx : ℝ) (vpot : ℕ → ℝ) (r : Except Fatal (St × ℕ)) :
    Option (ℕ → ℝ × ℝ × ℝ × ℝ × ℝ) :=
  match r with
  | .error _ => none
  | .ok (s, _) => some (rowPos dx vpot s)

/-- The bisection invariant maintained by the shooting loop: a non-inverted
bracket whose trial energy is its midpoint. -/
def InvSt (s : St) : Prop :=
  s.elw < s.eup ∧ s.e = 0.5 * (s.eup + s.elw)

/-!  ### Helper lemmas  -/

theorem sumSq_div_sqrt (y : ℕ → ℝ) (n : ℝ) (hn : 0 < n) (m : ℕ) :
    sumSq (fun i => y i / Real.sqrt n) m = sumSq y m / n := by
  induction m with
  | zero => simp [sumSq]
  | succ m ih =>
      have hs : Real.sqrt n * Real.sqrt n = n := Real.mul_self_sqrt hn.le
      simp only [sumSq, ih, div_mul_div_comm, hs, div_add_div_same]

theorem normOf_div_sqrt (dx : ℝ) (y : ℕ → ℝ) (mesh : ℕ)
    (hn : 0 < normOf dx y mesh) :
    normOf dx (fun i => y i / Real.sqrt (normOf dx y mesh)) mesh = 1 := by
  have hn' : (0 : ℝ) < dx * (2 * sumSq y mesh + y 0 * y 0) := hn
  have hs : Real.sqrt (dx * (2 * sumSq y mesh + y 0 * y 0)) *
      Real.sqrt (dx * (2 * sumSq y mesh + y 0 * y 0)) =
      dx * (2 * sumSq y mesh + y 0 * y 0) := Real.mul_self_sqrt hn'.le
  unfold normOf
  rw [sumSq_div_sqrt y _ hn', div_mul_div_comm, hs]
  field_simp

theorem passCore_matching (mesh : ℕ) (dx ddx12 : ℝ) (vpot : ℕ → ℝ)
    (nodes iterate : ℕ) (s : St) (icl : ℕ)
    (hbis : 1 < iterate)
    (hm : nctOf (fnumOf ddx12 vpot s.e) dx nodes icl = nodes) :
    passCore mesh dx ddx12 vpot nodes iterate s icl =
      if 0 < djumpOf (fnumOf ddx12 vpot s.e) mesh dx nodes icl *
          yNormOf (fnumOf ddx12 vpot s.e) mesh dx nodes icl icl then
        ⟨s.elw, s.e, 0.5 * (s.e + s.elw),
          yNormOf (fnumOf ddx12 vpot s.e) mesh dx nodes icl, icl⟩
      else
        ⟨s.e, s.eup, 0.5 * (s.eup + s.e),
          yNormOf (fnumOf ddx12 vpot s.e) mesh dx nodes icl, icl⟩ := by
  have hit : iterate ≠ 1 := by omega
  simp [passCore, hm, hit, hbis]

theorem passCore_fixed (mesh : ℕ) (dx ddx12 : ℝ) (vpot : ℕ → ℝ)
    (nodes : ℕ) (s : St) (icl : ℕ) :
    passCore mesh dx ddx12 vpot nodes 1 s icl =
      ⟨s.elw, s.eup, s.e, yNormOf (fnumOf ddx12 vpot s.e) mesh dx nodes icl, icl⟩ := by
  simp [passCore]

theorem pass_ok (mesh : ℕ) (dx ddx12 : ℝ) (vpot : ℕ → ℝ) (nodes iterate : ℕ)
    (s : St) (h1 : 1 ≤ iclOf ddx12 vpot s.e mesh)
    (h2 : iclOf ddx12 vpot s.e mesh < (mesh : ℤ) - 2) :
    pass mesh dx ddx12 vpot nodes iterate s =
      .ok (passCore mesh dx ddx12 vpot nodes iterate s
        (iclOf ddx12 vpot s.e mesh).toNat) := by
  unfold pass
  rw [if_neg (not_le.mpr h2), if_neg (not_lt.mpr h1)]

theorem loopGo_count_le (mesh : ℕ) (dx ddx12 : ℝ) (vpot : ℕ → ℝ)
    (nodes iterate : ℕ) :
    ∀ (fuel : ℕ) (s : St) (cnt : ℕ) (s' : St) (n : ℕ),
      loopGo mesh dx ddx12 vpot nodes iterate fuel s cnt = .ok (s', n) →
      n ≤ cnt + fuel := by
  intro fuel
  induction fuel with
  | zero =>
      intro s cnt s' n h
      simp only [loopGo, Except.ok.injEq, Prod.mk.injEq] at h
      omega
  | succ fuel ih =>
      intro s cnt s' n h
      simp only [loopGo] at h
      split at h
      · cases hp : pass mesh dx ddx12 vpot nodes iterate s with
        | error k => rw [hp] at h; cases h
        | ok s1 =>
            rw [hp] at h
            have := ih s1 (cnt + 1) s' n h
            omega
      · simp only [Except.ok.injEq, Prod.mk.injEq] at h
        omega

theorem loopGo_step (mesh : ℕ) (dx ddx12 : ℝ) (vpot : ℕ → ℝ)
    (nodes iterate fuel : ℕ) (s s1 : St) (cnt : ℕ)
    (hw : 1e-10 < s.eup - s.elw)
    (hp : pass mesh dx ddx12 vpot nodes iterate s = .ok s1) :
    loopGo mesh dx ddx12 vpot nodes iterate (fuel + 1) s cnt =
      loopGo mesh dx ddx12 vpot nodes iterate fuel s1 (cnt + 1) := by
  show loopGo mesh dx ddx12 vpot nodes iterate (Nat.succ fuel) s cnt = _
  simp only [loopGo]
  rw [if_pos hw, hp]

theorem loopGo_fixed_two (mesh : ℕ) (dx ddx12 : ℝ) (vpot : ℕ → ℝ)
    (nodes : ℕ) (s : St) (cnt : ℕ)
    (h1 : 1 ≤ iclOf ddx12 vpot s.e mesh)
    (h2 : iclOf ddx12 vpot s.e mesh < (mesh : ℤ) - 2)
    (hw : 1e-10 < s.eup - s.elw) :
    loopGo mesh dx ddx12 vpot nodes 1 (1 + 1) s cnt =
      .ok (passCore mesh dx ddx12 vpot nodes 1
            (passCore mesh dx ddx12 vpot nodes 1 s (iclOf ddx12 vpot s.e mesh).toNat)
            (iclOf ddx12 vpot s.e mesh).toNat,
          cnt + 2) := by
  have hs1 := passCore_fixed mesh dx ddx12 vpot nodes s (iclOf ddx12 vpot s.e mesh).toNat
  have hs1e : (passCore mesh dx ddx12 vpot nodes 1 s
      (iclOf ddx12 vpot s.e mesh).toNat).e = s.e := by rw [hs1]
  have hpass := pass_ok mesh dx ddx12 vpot nodes 1 s h1 h2
  have hpass2 := pass_ok mesh dx ddx12 vpot nodes 1
    (passCore mesh dx ddx12 vpot nodes 1 s (iclOf ddx12 vpot s.e mesh).toNat)
    (by rw [hs1e]; exact h1) (by rw [hs1e]; exact h2)
  rw [hs1e] at hpass2
  have hw1 : 1e-10 < (passCore mesh dx ddx12 vpot nodes 1 s
        (iclOf ddx12 vpot s.e mesh).toNat).eup -
      (passCore mesh dx ddx12 vpot nodes 1 s
        (iclOf ddx12 vpot s.e mesh).toNat).elw := by
    rw [hs1]; exact hw
  rw [loopGo_step mesh dx ddx12 vpot nodes 1 1 s _ cnt hw hpass,
    loopGo_step mesh dx ddx12 vpot nodes 1 0 _ _ (cnt + 1) hw1 hpass2]
  simp only [loopGo]

theorem loopGo_stop (mesh : ℕ) (dx ddx12 : ℝ) (vpot : ℕ → ℝ)
    (nodes iterate fuel : ℕ) (s : St) (cnt : ℕ)
    (hw : ¬ 1e-10 < s.eup - s.elw) :
    loopGo mesh dx ddx12 vpot nodes iterate (fuel + 1) s cnt = .ok (s, cnt) := by
  show loopGo mesh dx ddx12 vpot nodes iterate (Nat.succ fuel) s cnt = _
  simp only [loopGo]
  rw [if_neg hw]

theorem scanLow_le_zero (v : ℕ → ℝ) (init : ℝ) :
    ∀ n, scanLow v init n ≤ v 0 := by
  intro n
  induction n with
  | zero =>
      unfold scanLow
      split_ifs with h
      · exact le_refl _
      · exact le_of_not_lt h
  | succ n ih =>
      unfold scanLow
      split_ifs with h
      · exact le_of_lt (lt_of_lt_of_le h ih)
      · exact ih

theorem init_le_scanHigh (v : ℕ → ℝ) (init : ℝ) :
    ∀ n, init ≤ scanHigh v init n := by
  intro n
  induction n with
  | zero =>
      unfold scanHigh
      split_ifs with h
      · exact le_of_lt h
      · exact le_refl _
  | succ n ih =>
      unfold scanHigh
      split_ifs with h
      · exact le_trans ih (le_of_lt h)
      · exact ih

/-!  ### Claims  -/

/-- Claim C2: every matching pass rescales the inward branch by
`y_outward[icl] / y_inward[icl]`, so the concatenated array equals the
outward value at `icl`, and after dividing by `sqrt(norm)` with
`norm = dx * (2*Σ_{i=1..mesh} y[i]^2 + y[0]^2)` the trapezoid sum
`dx * (2*Σ y[i]^2 + y[0]^2)` of the stored array equals 1. -/
theorem claim_C2 (f : ℕ → ℝ) (mesh : ℕ) (dx : ℝ) (y0 y1 : ℝ) (icl : ℕ) :
    (yInOf f mesh dx icl ≠ 0 →
      yMatch f mesh dx y0 y1 icl icl = yOutAux f y0 y1 icl) ∧
    (0 < normOf dx (yMatch f mesh dx y0 y1 icl) mesh →
      normOf dx
        (fun i => yMatch f mesh dx y0 y1 icl i /
          Real.sqrt (normOf dx (yMatch f mesh dx y0 y1 icl) mesh)) mesh = 1) := by
  constructor
  · intro hin
    unfold yMatch
    rw [if_neg (lt_irrefl icl), mul_comm, div_mul_cancel₀ _ hin]
  · intro hn
    exact normOf_div_sqrt dx _ mesh hn

/-- Witness for C2 at a concrete matching configuration. -/
theorem claim_C2_witness :
    yInOf (fun _ => (1 : ℝ)) 1 1 0 ≠ 0 ∧
    0 < normOf 1 (yMatch (fun _ => (1 : ℝ)) 1 1 1 1 0) 1 ∧
    yMatch (fun _ => (1 : ℝ)) 1 1 1 1 0 0 = yOutAux (fun _ => (1 : ℝ)) 1 1 0 ∧
    normOf 1
      (fun i => yMatch (fun _ => (1 : ℝ)) 1 1 1 1 0 i /
        Real.sqrt (normOf 1 (yMatch (fun _ => (1 : ℝ)) 1 1 1 1 0) 1)) 1 = 1 := by
  have hin : yInOf (fun _ => (1 : ℝ)) 1 1 0 ≠ 0 := by
    norm_num [yInOf, yInAux]
  have hn : 0 < normOf 1 (yMatch (fun _ => (1 : ℝ)) 1 1 1 1 0) 1 := by
    norm_num [normOf, sumSq, yMatch, yInOf, yInAux, yOutAux]
  exact ⟨hin, hn, (claim_C2 (fun _ => 1) 1 1 1 1 0).1 hin,
    (claim_C2 (fun _ => 1) 1 1 1 1 0).2 hn⟩

/-- Counterexample to claim C3 as stated: at `dx = 1`, `vpot ≡ 0`, `e = 1`
the point `i = 1` is classically allowed (`vpot[1] < e`), yet the Numerov
coefficient is `7/6 > 1`, not `< 1` as the claim asserts. -/
theorem claim_C3_counterexample :
    (fun _ : ℕ => (0 : ℝ)) 1 < 1 ∧
    fnumOf ((1 : ℝ) * 1 / 12) (fun _ : ℕ => (0 : ℝ)) 1 1 = 7 / 6 ∧
    ¬ fnumOf ((1 : ℝ) * 1 / 12) (fun _ : ℕ => (0 : ℝ)) 1 1 < 1 := by
  norm_num [fnumOf, fpert, fraw]

/-- Claim C3 (amended): whenever the raw value is not perturbed, the Numerov
coefficient is `f[i] = 1 - (dx^2/6) * (vpot[i] - e)`; for `dx ≠ 0` the
encoding satisfies `vpot[i] < e ⟹ f[i] > 1` (classically allowed) and
`vpot[i] > e ⟹ f[i] < 1` (forbidden) — the opposite directions from the
claim's `f<1` / `f>1`. -/
theorem claim_C3 (dx : ℝ) (vpot : ℕ → ℝ) (e : ℝ) (i : ℕ) :
    (i = 0 ∨ fraw (dx * dx / 12) vpot e i ≠ 0 →
      fnumOf (dx * dx / 12) vpot e i = 1 - dx ^ 2 / 6 * (vpot i - e)) ∧
    (dx ≠ 0 →
      (vpot i < e → 1 < fnumOf (dx * dx / 12) vpot e i) ∧
      (e < vpot i → fnumOf (dx * dx / 12) vpot e i < 1)) := by
  have hform : ∀ j : ℕ, (1 : ℝ) - fraw (dx * dx / 12) vpot e j =
      1 - dx ^ 2 / 6 * (vpot j - e) := by
    intro j; unfold fraw; ring
  constructor
  · rintro (h0 | hne)
    · subst h0
      simp only [fnumOf, fpert]
      exact hform 0
    · cases i with
      | zero => simp only [fnumOf, fpert]; exact hform 0
      | succ n =>
          simp only [fnumOf, fpert, if_neg hne]
          exact hform (n + 1)
  · intro hdx
    have hsq : 0 < dx * dx := mul_self_pos.mpr hdx
    constructor
    · intro hv
      have hraw : fraw (dx * dx / 12) vpot e i < 0 := by
        unfold fraw; nlinarith
      cases i with
      | zero => simp only [fnumOf, fpert]; linarith
      | succ n => simp only [fnumOf, fpert, if_neg hraw.ne]; linarith
    · intro hv
      have hraw : 0 < fraw (dx * dx / 12) vpot e i := by
        unfold fraw; nlinarith
      cases i with
      | zero => simp only [fnumOf, fpert]; linarith
      | succ n => simp only [fnumOf, fpert, if_neg hraw.ne']; linarith

/-- Witness for the amended C3 at `dx = 1`, `vpot ≡ 0`, `e = 1`, `i = 1`. -/
theorem claim_C3_witness :
    ((1 : ℕ) = 0 ∨ fraw ((1 : ℝ) * 1 / 12) (fun _ : ℕ => (0 : ℝ)) 1 1 ≠ 0) ∧
    (1 : ℝ) ≠ 0 ∧ (fun _ : ℕ => (0 : ℝ)) 1 < 1 ∧
    fnumOf ((1 : ℝ) * 1 / 12) (fun _ : ℕ => (0 : ℝ)) 1 1 =
      1 - 1 ^ 2 / 6 * ((fun _ : ℕ => (0 : ℝ)) 1 - 1) ∧
    1 < fnumOf ((1 : ℝ) * 1 / 12) (fun _ : ℕ => (0 : ℝ)) 1 1 :=
  ⟨Or.inr (by norm_num [fraw]), by norm_num, by norm_num,
    (claim_C3 1 (fun _ => 0) 1 1).1 (Or.inr (by norm_num [fraw])),
    ((claim_C3 1 (fun _ => 0) 1 1).2 (by norm_num)).1 (by norm_num)⟩

/-- Counterexample to claim C7 as stated: with `vpot` vanishing except
`vpot[2] = 1` and `e = 1`, the raw value at `i = 2` is exactly zero while the
previous stored value is negative; the stored value is `+1e-20`, not a value
carrying the (negative) sign determined by the previous entry. -/
theorem claim_C7_counterexample :
    fraw ((1 : ℝ) / 12) (fun i => if i = 2 then (1 : ℝ) else 0) 1 2 = 0 ∧
    fpert ((1 : ℝ) / 12) (fun i => if i = 2 then (1 : ℝ) else 0) 1 1 < 0 ∧
    fpert ((1 : ℝ) / 12) (fun i => if i = 2 then (1 : ℝ) else 0) 1 2 = 1e-20 ∧
    fpert ((1 : ℝ) / 12) (fun i => if i = 2 then (1 : ℝ) else 0) 1 2 ≠ -(1e-20) := by
  norm_num [fraw, fpert]

/-- Claim C7 (amended): when the raw value at a scanned index `i ≥ 1` is
exactly zero, the stored value is the constant `+1e-20` — positive regardless
of the previous value — hence nonzero, and when the previous stored value is
negative the sign scan still records a change at this index. -/
theorem claim_C7 (ddx12 : ℝ) (vpot : ℕ → ℝ) (e : ℝ) (i : ℕ)
    (h : fraw ddx12 vpot e (i + 1) = 0) :
    fpert ddx12 vpot e (i + 1) = 1e-20 ∧
    0 < fpert ddx12 vpot e (i + 1) ∧
    (fpert ddx12 vpot e i < 0 →
      signDiff (fpert ddx12 vpot e (i + 1)) (fpert ddx12 vpot e i)) := by
  have hv : fpert ddx12 vpot e (i + 1) = 1e-20 := by
    simp only [fpert, if_pos h]
  refine ⟨hv, by rw [hv]; norm_num, fun hprev => Or.inl ⟨by rw [hv]; norm_num, hprev⟩⟩

/-- Witness for the amended C7 at the counterexample's configuration. -/
theorem claim_C7_witness :
    fraw ((1 : ℝ) / 12) (fun i => if i = 2 then (1 : ℝ) else 0) 1 (1 + 1) = 0 ∧
    fpert ((1 : ℝ) / 12) (fun i => if i = 2 then (1 : ℝ) else 0) 1 (1 + 1) = 1e-20 := by
  have h : fraw ((1 : ℝ) / 12) (fun i => if i = 2 then (1 : ℝ) else 0) 1 (1 + 1) = 0 := by
    norm_num [fraw]
  exact ⟨h, (claim_C7 (1 / 12) (fun i => if i = 2 then (1 : ℝ) else 0) 1 1 h).1⟩

/-- Counterexample to claim C9 as stated: at `xmax = -1 ≤ 0` (an input the
claim requires to be rejected with `InvalidParameterError` before building
anything) the code still builds grid and potential values by the usual
formulas — there is no validation or error path in the source. -/
theorem claim_C9_counterexample :
    (-1 : ℝ) ≤ 0 ∧ harmonicX (-1) 5 5 = -1 ∧ harmonicV (-1) 5 5 = 0.5 := by
  norm_num [harmonicX, harmonicV]

/-- Claim C9 (amended): for every input — with no validity precondition and
no rejection path — the grid starts at the origin, has the uniform spacing
`dx = xmax / mesh` with `x[i] = i * dx`, and the potential samples are
`vpot[i] = 0.5 * x[i] * x[i]`. -/
theorem claim_C9 (xmax : ℝ) (mesh : ℕ) (i : ℕ) :
    harmonicX xmax mesh 0 = 0 ∧
    harmonicX xmax mesh i = harmonicXd (xmax / mesh) i ∧
    harmonicX xmax mesh (i + 1) - harmonicX xmax mesh i = xmax / mesh ∧
    harmonicV xmax mesh i = 0.5 * harmonicX xmax mesh i * harmonicX xmax mesh i := by
  refine ⟨by simp [harmonicX], rfl, ?_, rfl⟩
  unfold harmonicX
  push_cast
  ring

/-- Claim C5: the shooting loop exits as soon as the bracket width is below
`1e-10` (returning the current state, zero further passes), exhausting the
fuel is a soft exit returning the current best state, any successful run
executes at most `cnt + fuel` passes, and a bisection search hands the loop
the source's budget `iterate = 1000`, i.e. fuel `1000 + 1` for the loop
counter range `kkk = 0..1000`. -/
theorem claim_C5 (mesh : ℕ) (dx ddx12 : ℝ) (vpot : ℕ → ℝ)
    (nodes iterate fuel : ℕ) (s : St) (cnt : ℕ) :
    (s.eup - s.elw < 1e-10 →
      loopGo mesh dx ddx12 vpot nodes iterate (fuel + 1) s cnt = .ok (s, cnt)) ∧
    (loopGo mesh dx ddx12 vpot nodes iterate 0 s cnt = .ok (s, cnt)) ∧
    (∀ (s' : St) (n : ℕ),
      loopGo mesh dx ddx12 vpot nodes iterate fuel s cnt = .ok (s', n) →
      n ≤ cnt + fuel) ∧
    (∀ xmax : ℝ,
      searchRun mesh xmax nodes 0 =
        loopGo mesh (xmax / mesh) (xmax / mesh * (xmax / mesh) / 12)
          (harmonicV xmax mesh) nodes 1000 (1000 + 1)
          ⟨scanLow (harmonicV xmax mesh) (harmonicV xmax mesh mesh) mesh,
           scanHigh (harmonicV xmax mesh) (harmonicV xmax mesh mesh) mesh,
           0.5 * (scanLow (harmonicV xmax mesh) (harmonicV xmax mesh mesh) mesh +
             scanHigh (harmonicV xmax mesh) (harmonicV xmax mesh mesh) mesh),
           fun _ => 0, 0⟩ 0) := by
  refine ⟨?_, rfl, fun s' n h => loopGo_count_le mesh dx ddx12 vpot nodes iterate
    fuel s cnt s' n h, fun xmax => by simp [searchRun]⟩
  intro hw
  show loopGo mesh dx ddx12 vpot nodes iterate (Nat.succ fuel) s cnt = _
  simp only [loopGo]
  rw [if_neg (not_lt.mpr hw.le)]

/-- Witness for C5: a state whose bracket is already below the tolerance
exits immediately with zero passes, and that run's pass count obeys the
fuel bound. -/
theorem claim_C5_witness :
    (1e-11 : ℝ) - 0 < 1e-10 ∧
    loopGo 1 0 0 (fun _ => (0 : ℝ)) 0 1 3 ⟨0, 1e-11, 0, fun _ => 0, 0⟩ 0 =
      .ok (⟨0, 1e-11, 0, fun _ => 0, 0⟩, 0) ∧
    (0 : ℕ) ≤ 0 + 3 := by
  have hw : (⟨0, 1e-11, 0, fun _ => 0, 0⟩ : St).eup -
      (⟨0, 1e-11, 0, fun _ => 0, 0⟩ : St).elw < 1e-10 := by norm_num
  have h2 := (claim_C5 1 0 0 (fun _ => (0 : ℝ)) 0 1 2
    ⟨0, 1e-11, 0, fun _ => 0, 0⟩ 0).1 hw
  refine ⟨by norm_num, h2, ?_⟩
  exact (claim_C5 1 0 0 (fun _ => (0 : ℝ)) 0 1 3
    ⟨0, 1e-11, 0, fun _ => 0, 0⟩ 0).2.2.1 _ _ h2

/-- Claim C4: a bisection search starts with `elw`/`eup` the potential's grid
minimum/maximum and `e` the midpoint — a valid bracket (`elw < eup`, midpoint
invariant) for every `0 < xmax`, `1 ≤ mesh` — and every pass of the loop
preserves the invariant while never widening the bracket. -/
theorem claim_C4 :
    (∀ (mesh : ℕ) (xmax : ℝ), 0 < xmax → 1 ≤ mesh →
      InvSt ⟨scanLow (harmonicV xmax mesh) (harmonicV xmax mesh mesh) mesh,
             scanHigh (harmonicV xmax mesh) (harmonicV xmax mesh mesh) mesh,
             0.5 * (scanLow (harmonicV xmax mesh) (harmonicV xmax mesh mesh) mesh +
               scanHigh (harmonicV xmax mesh) (harmonicV xmax mesh mesh) mesh),
             fun _ => 0, 0⟩) ∧
    (∀ (mesh : ℕ) (dx ddx12 : ℝ) (vpot : ℕ → ℝ) (nodes iterate : ℕ) (s : St)
        (icl : ℕ), InvSt s →
      InvSt (passCore mesh dx ddx12 vpot nodes iterate s icl) ∧
      (passCore mesh dx ddx12 vpot nodes iterate s icl).eup -
          (passCore mesh dx ddx12 vpot nodes iterate s icl).elw ≤
        s.eup - s.elw) := by
  constructor
  · intro mesh xmax hx hm
    have hm0 : (mesh : ℝ) ≠ 0 := Nat.cast_ne_zero.mpr (by omega)
    have hv0 : harmonicV xmax mesh 0 = 0 := by
      simp [harmonicV, harmonicX]
    have hvm : harmonicV xmax mesh mesh = 0.5 * xmax * xmax := by
      unfold harmonicV harmonicX
      field_simp
    have hlow : scanLow (harmonicV xmax mesh) (harmonicV xmax mesh mesh) mesh ≤ 0 :=
      hv0 ▸ scanLow_le_zero _ _ mesh
    have hhigh : 0.5 * xmax * xmax ≤
        scanHigh (harmonicV xmax mesh) (harmonicV xmax mesh mesh) mesh :=
      hvm ▸ init_le_scanHigh _ _ mesh
    constructor
    · have : (0 : ℝ) < 0.5 * xmax * xmax := by nlinarith
      linarith
    · show 0.5 * (_ + _) = 0.5 * (_ + _)
      ring
  · intro mesh dx ddx12 vpot nodes iterate s icl hInv
    obtain ⟨hlt, he⟩ := hInv
    have h1 : s.elw < s.e := by rw [he]; linarith
    have h2 : s.e < s.eup := by rw [he]; linarith
    simp only [passCore, InvSt]
    split_ifs <;> exact ⟨⟨by linarith, by linarith [he]⟩, by linarith⟩

/-- Witness for C4: the invariant holds for the concrete initial state of a
`mesh = 5`, `xmax = 5` search and is preserved by a concrete pass. -/
theorem claim_C4_witness :
    (0 : ℝ) < 5 ∧ (1 : ℕ) ≤ 5 ∧
    InvSt ⟨scanLow (harmonicV 5 5) (harmonicV 5 5 5) 5,
           scanHigh (harmonicV 5 5) (harmonicV 5 5 5) 5,
           0.5 * (scanLow (harmonicV 5 5) (harmonicV 5 5 5) 5 +
             scanHigh (harmonicV 5 5) (harmonicV 5 5 5) 5),
           fun _ => 0, 0⟩ ∧
    InvSt ⟨0, 4, 2, fun _ => 0, 0⟩ ∧
    (InvSt (passCore 5 1 (1 / 12) (harmonicV 5 5) 0 1000 ⟨0, 4, 2, fun _ => 0, 0⟩ 2) ∧
      (passCore 5 1 (1 / 12) (harmonicV 5 5) 0 1000 ⟨0, 4, 2, fun _ => 0, 0⟩ 2).eup -
          (passCore 5 1 (1 / 12) (harmonicV 5 5) 0 1000 ⟨0, 4, 2, fun _ => 0, 0⟩ 2).elw ≤
        (4 : ℝ) - 0) :=
  ⟨by norm_num, by norm_num,
    claim_C4.1 5 5 (by norm_num) (by norm_num),
    by constructor <;> norm_num,
    claim_C4.2 5 1 (1 / 12) (harmonicV 5 5) 0 1000 ⟨0, 4, 2, fun _ => 0, 0⟩ 2
      (by constructor <;> norm_num)⟩

/-- Claim C1: in bisection mode (`iterate > 1`), a pass whose outward node
count equals the requested nodes runs matching and then updates the bracket by
the sign of `djump * y[icl]` with
`djump = (y[icl+1] + y[icl-1] - (14 - 12*f[icl]) * y[icl]) / dx` computed on
the normalized concatenated wavefunction: `djump * y[icl] > 0` gives
`eup := e`, otherwise `elw := e`, and then `e := (eup + elw) / 2`. -/
theorem claim_C1 (mesh : ℕ) (dx ddx12 : ℝ) (vpot : ℕ → ℝ) (nodes iterate : ℕ)
    (s : St) (icl : ℕ)
    (hbis : 1 < iterate) (hicl : 1 ≤ icl)
    (hmatch : nctOf (fnumOf ddx12 vpot s.e) dx nodes icl = nodes) :
    passCore mesh dx ddx12 vpot nodes iterate s icl =
      if 0 < (yNormOf (fnumOf ddx12 vpot s.e) mesh dx nodes icl (icl + 1) +
              yNormOf (fnumOf ddx12 vpot s.e) mesh dx nodes icl (icl - 1) -
              (14 - 12 * fnumOf ddx12 vpot s.e icl) *
                yNormOf (fnumOf ddx12 vpot s.e) mesh dx nodes icl icl) / dx *
            yNormOf (fnumOf ddx12 vpot s.e) mesh dx nodes icl icl then
        ⟨s.elw, s.e, 0.5 * (s.e + s.elw),
          yNormOf (fnumOf ddx12 vpot s.e) mesh dx nodes icl, icl⟩
      else
        ⟨s.e, s.eup, 0.5 * (s.eup + s.e),
          yNormOf (fnumOf ddx12 vpot s.e) mesh dx nodes icl, icl⟩ := by
  rw [passCore_matching mesh dx ddx12 vpot nodes iterate s icl hbis hmatch]
  rfl

/-- Witness for C1 at a concrete bisection matching pass (`mesh = 4`,
`e = 1/4`, `icl = 1`, `nodes = 0`). -/
theorem claim_C1_witness :
    1 < 1000 ∧ (1 : ℕ) ≤ 1 ∧
    nctOf (fnumOf (1 / 12) (harmonicV 4 4)
      ((⟨0, 8, 0.25, fun _ => 0, 0⟩ : St).e)) 1 0 1 = 0 ∧
    (passCore 4 1 (1 / 12) (harmonicV 4 4) 0 1000 ⟨0, 8, 0.25, fun _ => 0, 0⟩ 1).icl =
      1 := by
  have hm : nctOf (fnumOf (1 / 12) (harmonicV 4 4)
      ((⟨0, 8, 0.25, fun _ => 0, 0⟩ : St).e)) 1 0 1 = 0 := by
    norm_num [nctOf, ncrossOf, ncrossAux]
  refine ⟨by norm_num, le_refl 1, hm, ?_⟩
  rw [claim_C1 4 1 (1 / 12) (harmonicV 4 4) 0 1000 ⟨0, 8, 0.25, fun _ => 0, 0⟩ 1
    (by norm_num) (le_refl 1) hm]
  split_ifs <;> rfl

/-- Counterexample to claim C6 as stated: the fixed-energy search
`mesh = 5`, `xmax = 5`, `nodes = 0`, trial energy `1` performs exactly two
evaluation passes (`kkk = 0` and `kkk = 1` both satisfy `kkk <= iterate` with
`iterate = 1`), not exactly one. -/
theorem claim_C6_counterexample :
    (∃ r : St, searchRun 5 5 0 1 = .ok (r, 2)) ∧
    ∀ r : St, searchRun 5 5 0 1 ≠ .ok (r, 1) := by
  have key : ∃ r : St, searchRun 5 5 0 1 = .ok (r, 2) :=
    ⟨_, by
      show searchRun 5 5 0 1 = _
      simp only [searchRun]
      rw [if_neg (by norm_num : (1 : ℝ) ≠ 0)]
      exact loopGo_fixed_two 5 _ _ (harmonicV 5 5) 0 _ 0
        (by norm_num [iclOf, iclAux, fpert, fraw, signDiff, harmonicV, harmonicX])
        (by norm_num [iclOf, iclAux, fpert, fraw, signDiff, harmonicV, harmonicX])
        (by norm_num [scanHigh, scanLow, harmonicV, harmonicX])⟩
  refine ⟨key, ?_⟩
  intro r hr
  obtain ⟨r2, h2⟩ := key
  rw [h2] at hr
  simp only [Except.ok.injEq, Prod.mk.injEq] at hr
  exact absurd hr.2 (by norm_num)

/-- Claim C6 (amended): in fixed-energy mode (`iterate = 1`) no pass ever
updates the bracket or the trial energy, and when the initial bracket is
wider than the tolerance the loop performs exactly two identical evaluation
passes at the supplied energy before exiting. -/
theorem claim_C6 (mesh : ℕ) (dx ddx12 : ℝ) (vpot : ℕ → ℝ) (nodes : ℕ)
    (s : St) (cnt : ℕ)
    (h1 : 1 ≤ iclOf ddx12 vpot s.e mesh)
    (h2 : iclOf ddx12 vpot s.e mesh < (mesh : ℤ) - 2)
    (hw : 1e-10 < s.eup - s.elw) :
    (∀ icl, (passCore mesh dx ddx12 vpot nodes 1 s icl).elw = s.elw ∧
      (passCore mesh dx ddx12 vpot nodes 1 s icl).eup = s.eup ∧
      (passCore mesh dx ddx12 vpot nodes 1 s icl).e = s.e) ∧
    loopGo mesh dx ddx12 vpot nodes 1 (1 + 1) s cnt =
      .ok (passCore mesh dx ddx12 vpot nodes 1
            (passCore mesh dx ddx12 vpot nodes 1 s (iclOf ddx12 vpot s.e mesh).toNat)
            (iclOf ddx12 vpot s.e mesh).toNat, cnt + 2) := by
  refine ⟨fun icl => ?_, loopGo_fixed_two mesh dx ddx12 vpot nodes s cnt h1 h2 hw⟩
  rw [passCore_fixed]
  exact ⟨rfl, rfl, rfl⟩

/-- Witness for the amended C6 at the counterexample's configuration. -/
theorem claim_C6_witness :
    (1 : ℤ) ≤ iclOf (1 / 12) (harmonicV 5 5)
      ((⟨0, 12.5, 1, fun _ => 0, 0⟩ : St).e) 5 ∧
    (∀ icl, (passCore 5 1 (1 / 12) (harmonicV 5 5) 0 1
      ⟨0, 12.5, 1, fun _ => 0, 0⟩ icl).e = 1) ∧
    loopGo 5 1 (1 / 12) (harmonicV 5 5) 0 1 (1 + 1) ⟨0, 12.5, 1, fun _ => 0, 0⟩ 0 =
      .ok (passCore 5 1 (1 / 12) (harmonicV 5 5) 0 1
            (passCore 5 1 (1 / 12) (harmonicV 5 5) 0 1 ⟨0, 12.5, 1, fun _ => 0, 0⟩
              (iclOf (1 / 12) (harmonicV 5 5)
                ((⟨0, 12.5, 1, fun _ => 0, 0⟩ : St).e) 5).toNat)
            (iclOf (1 / 12) (harmonicV 5 5)
              ((⟨0, 12.5, 1, fun _ => 0, 0⟩ : St).e) 5).toNat, 0 + 2) := by
  have h1 : (1 : ℤ) ≤ iclOf (1 / 12) (harmonicV 5 5)
      ((⟨0, 12.5, 1, fun _ => 0, 0⟩ : St).e) 5 := by
    norm_num [iclOf, iclAux, fpert, fraw, signDiff, harmonicV, harmonicX]
  have h2 : iclOf (1 / 12) (harmonicV 5 5)
      ((⟨0, 12.5, 1, fun _ => 0, 0⟩ : St).e) 5 < (5 : ℤ) - 2 := by
    norm_num [iclOf, iclAux, fpert, fraw, signDiff, harmonicV, harmonicX]
  have h := claim_C6 5 1 (1 / 12) (harmonicV 5 5) 0 ⟨0, 12.5, 1, fun _ => 0, 0⟩ 0
    h1 h2 (by norm_num)
  exact ⟨h1, fun icl => (h.1 icl).2.2, h.2⟩

/-- Counterexample to claim C8 as stated: at `mesh = 1`, `xmax = 1`, fixed
trial energy `-5` the scan finds no sign change (`icl = -1 < 1`), yet the
search fails with the "too far" diagnostic, not the claimed
`NoTurningPointError` — the `icl >= mesh-2` check runs first. -/
theorem claim_C8_counterexample :
    iclOf (1 / 12 : ℝ) (harmonicV 1 1) (-5) 1 = -1 ∧
    searchRun 1 1 0 (-5) = .error .tooFar ∧
    searchRun 1 1 0 (-5) ≠ .error .noTp := by
  have hicl : iclOf (1 / 12 : ℝ) (harmonicV 1 1) (-5) 1 = -1 := by
    norm_num [iclOf, iclAux, fpert, fraw, signDiff, harmonicV, harmonicX]
  have hrun : searchRun 1 1 0 (-5) = .error .tooFar := by
    norm_num [searchRun, loopGo, pass, iclOf, iclAux, fpert, fraw, signDiff,
      harmonicV, harmonicX, scanHigh, scanLow]
  refine ⟨hicl, hrun, ?_⟩
  rw [hrun]
  simp

/-- Claim C8 (amended): a pass fails exactly when `icl < 1` or
`icl >= mesh - 2`; the `icl >= mesh - 2` check takes precedence, so the
"no turning point" failure is reported exactly when `icl < 1` and
`icl < mesh - 2`; a failing pass aborts the whole loop with that error, and
an aborted search emits no output table. -/
theorem claim_C8 (mesh : ℕ) (dx ddx12 : ℝ) (vpot : ℕ → ℝ)
    (nodes iterate : ℕ) (s : St) :
    (pass mesh dx ddx12 vpot nodes iterate s = .error .tooFar ↔
      (mesh : ℤ) - 2 ≤ iclOf ddx12 vpot s.e mesh) ∧
    (pass mesh dx ddx12 vpot nodes iterate s = .error .noTp ↔
      (iclOf ddx12 vpot s.e mesh < 1 ∧
        iclOf ddx12 vpot s.e mesh < (mesh : ℤ) - 2)) ∧
    ((∃ k, pass mesh dx ddx12 vpot nodes iterate s = .error k) ↔
      (iclOf ddx12 vpot s.e mesh < 1 ∨
        (mesh : ℤ) - 2 ≤ iclOf ddx12 vpot s.e mesh)) ∧
    (∀ (fuel cnt : ℕ) (k : Fatal),
      pass mesh dx ddx12 vpot nodes iterate s = .error k →
      1e-10 < s.eup - s.elw →
      loopGo mesh dx ddx12 vpot nodes iterate (fuel + 1) s cnt = .error k) ∧
    (∀ k : Fatal, emitted dx vpot (.error k) = none) := by
  have part4 : ∀ (fuel cnt : ℕ) (k : Fatal),
      pass mesh dx ddx12 vpot nodes iterate s = .error k →
      1e-10 < s.eup - s.elw →
      loopGo mesh dx ddx12 vpot nodes iterate (fuel + 1) s cnt = .error k := by
    intro fuel cnt k hk hw
    show loopGo mesh dx ddx12 vpot nodes iterate (Nat.succ fuel) s cnt = _
    simp only [loopGo]
    rw [if_pos hw, hk]
  by_cases hA : (mesh : ℤ) - 2 ≤ iclOf ddx12 vpot s.e mesh
  · have hp : pass mesh dx ddx12 vpot nodes iterate s = .error .tooFar := by
      unfold pass
      rw [if_pos hA]
    refine ⟨⟨fun _ => hA, fun _ => hp⟩, ?_, ?_, part4, fun k => rfl⟩
    · rw [hp]
      constructor
      · intro h
        exact absurd (Except.error.inj h) (by simp)
      · intro h
        omega
    · exact ⟨fun _ => Or.inr hA, fun _ => ⟨.tooFar, hp⟩⟩
  · by_cases hB : iclOf ddx12 vpot s.e mesh < 1
    · have hp : pass mesh dx ddx12 vpot nodes iterate s = .error .noTp := by
        unfold pass
        rw [if_neg hA, if_pos hB]
      refine ⟨?_, ?_, ?_, part4, fun k => rfl⟩
      · rw [hp]
        constructor
        · intro h
          exact absurd (Except.error.inj h) (by simp)
        · intro h
          omega
      · exact ⟨fun _ => ⟨hB, not_le.mp hA⟩, fun _ => hp⟩
      · exact ⟨fun _ => Or.inl hB, fun _ => ⟨.noTp, hp⟩⟩
    · have hp : pass mesh dx ddx12 vpot nodes iterate s =
          .ok (passCore mesh dx ddx12 vpot nodes iterate s
            (iclOf ddx12 vpot s.e mesh).toNat) := by
        unfold pass
        rw [if_neg hA, if_neg hB]
      refine ⟨?_, ?_, ?_, part4, fun k => rfl⟩
      · rw [hp]
        constructor
        · intro h
          cases h
        · intro h
          omega
      · rw [hp]
        constructor
        · intro h
          cases h
        · intro h
          exact absurd h.1 hB
      · constructor
        · intro ⟨k, hk⟩
          rw [hp] at hk
          cases hk
        · intro h
          cases h with
          | inl h => exact absurd h hB
          | inr h => exact absurd h hA

/-- Witness for the amended C8: the failing `mesh = 1` search propagates its
fatal diagnostic through the loop. -/
theorem claim_C8_witness :
    loopGo 1 1 (1 / 12) (harmonicV 1 1) 0 1 3 ⟨0, 1 / 2, -5, fun _ => 0, 0⟩ 0 =
      .error .tooFar := by
  have h := claim_C8 1 1 (1 / 12) (harmonicV 1 1) 0 1 ⟨0, 1 / 2, -5, fun _ => 0, 0⟩
  exact h.2.2.2.1 2 0 .tooFar
    (h.1.mpr (by norm_num [iclOf, iclAux, fpert, fraw, signDiff, harmonicV, harmonicX]))
    (by norm_num)

/-- Claim C10: when a bisection pass runs matching and the loop exits right
after it, the emitted table's `y` column is the normalized array computed at
that pass's trial energy (the state's `y` is not recomputed), while the
classical-density column is built from the turning radius `sqrt(2*e)` at the
energy updated by the bracket narrowing that followed the matching — two
different energies. -/
theorem claim_C10 (mesh : ℕ) (dx ddx12 : ℝ) (vpot : ℕ → ℝ) (nodes : ℕ)
    (s : St) (fuel cnt : ℕ)
    (h1 : 1 ≤ iclOf ddx12 vpot s.e mesh)
    (h2 : iclOf ddx12 vpot s.e mesh < (mesh : ℤ) - 2)
    (hm : nctOf (fnumOf ddx12 vpot s.e) dx nodes (iclOf ddx12 vpot s.e mesh).toNat =
      nodes)
    (hw : 1e-10 < s.eup - s.elw)
    (hstop1 : s.e - s.elw ≤ 1e-10) (hstop2 : s.eup - s.e ≤ 1e-10)
    (hne1 : s.elw ≠ s.e) (hne2 : s.eup ≠ s.e) :
    loopGo mesh dx ddx12 vpot nodes 1000 (fuel + 1 + 1) s cnt =
      .ok (passCore mesh dx ddx12 vpot nodes 1000 s
        (iclOf ddx12 vpot s.e mesh).toNat, cnt + 1) ∧
    (passCore mesh dx ddx12 vpot nodes 1000 s (iclOf ddx12 vpot s.e mesh).toNat).y =
      yNormOf (fnumOf ddx12 vpot s.e) mesh dx nodes (iclOf ddx12 vpot s.e mesh).toNat ∧
    (passCore mesh dx ddx12 vpot nodes 1000 s (iclOf ddx12 vpot s.e mesh).toNat).icl =
      (iclOf ddx12 vpot s.e mesh).toNat ∧
    (passCore mesh dx ddx12 vpot nodes 1000 s (iclOf ddx12 vpot s.e mesh).toNat).e ≠
      s.e ∧
    (∀ i, rowPos dx vpot
        (passCore mesh dx ddx12 vpot nodes 1000 s (iclOf ddx12 vpot s.e mesh).toNat) i =
      (harmonicXd dx i,
       yNormOf (fnumOf ddx12 vpot s.e) mesh dx nodes (iclOf ddx12 vpot s.e mesh).toNat i,
       yNormOf (fnumOf ddx12 vpot s.e) mesh dx nodes (iclOf ddx12 vpot s.e mesh).toNat i *
         yNormOf (fnumOf ddx12 vpot s.e) mesh dx nodes (iclOf ddx12 vpot s.e mesh).toNat i,
       pOf dx (harmonicXd dx) (iclOf ddx12 vpot s.e mesh).toNat
         (passCore mesh dx ddx12 vpot nodes 1000 s (iclOf ddx12 vpot s.e mesh).toNat).e i,
       vpot i)) := by
  have hmm := passCore_matching mesh dx ddx12 vpot nodes 1000 s
    (iclOf ddx12 vpot s.e mesh).toNat (by norm_num) hm
  have hpass := pass_ok mesh dx ddx12 vpot nodes 1000 s h1 h2
  have hloop1 := loopGo_step mesh dx ddx12 vpot nodes 1000 (fuel + 1) s _ cnt hw hpass
  by_cases hc : 0 < djumpOf (fnumOf ddx12 vpot s.e) mesh dx nodes
        (iclOf ddx12 vpot s.e mesh).toNat *
      yNormOf (fnumOf ddx12 vpot s.e) mesh dx nodes
        (iclOf ddx12 vpot s.e mesh).toNat (iclOf ddx12 vpot s.e mesh).toNat
  · have hsP : passCore mesh dx ddx12 vpot nodes 1000 s
        (iclOf ddx12 vpot s.e mesh).toNat =
        ⟨s.elw, s.e, 0.5 * (s.e + s.elw),
          yNormOf (fnumOf ddx12 vpot s.e) mesh dx nodes
            (iclOf ddx12 vpot s.e mesh).toNat,
          (iclOf ddx12 vpot s.e mesh).toNat⟩ := by
      rw [hmm, if_pos hc]
    refine ⟨?_, by rw [hsP], by rw [hsP], ?_, ?_⟩
    · rw [hloop1, hsP]
      exact loopGo_stop mesh dx ddx12 vpot nodes 1000 fuel _ (cnt + 1)
        (not_lt.mpr (by simpa using hstop1))
    · rw [hsP]
      intro hcontr
      exact hne1 (by simpa using by linarith [show (0.5 : ℝ) * (s.e + s.elw) = s.e from hcontr])
    · intro i
      rw [hsP]
      rfl
  · have hsP : passCore mesh dx ddx12 vpot nodes 1000 s
        (iclOf ddx12 vpot s.e mesh).toNat =
        ⟨s.e, s.eup, 0.5 * (s.eup + s.e),
          yNormOf (fnumOf ddx12 vpot s.e) mesh dx nodes
            (iclOf ddx12 vpot s.e mesh).toNat,
          (iclOf ddx12 vpot s.e mesh).toNat⟩ := by
      rw [hmm, if_neg hc]
    refine ⟨?_, by rw [hsP], by rw [hsP], ?_, ?_⟩
    · rw [hloop1, hsP]
      exact loopGo_stop mesh dx ddx12 vpot nodes 1000 fuel _ (cnt + 1)
        (not_lt.mpr (by simpa using hstop2))
    · rw [hsP]
      intro hcontr
      exact hne2 (by simpa using by linarith [show (0.5 : ℝ) * (s.eup + s.e) = s.e from hcontr])
    · intro i
      rw [hsP]
      rfl

/-- Witness for C10 at a concrete matching pass with a near-collapsed bracket
(`mesh = 5`, `nodes = 2`, `e = 1`). -/
theorem claim_C10_witness :
    (1e-10 : ℝ) <
      (⟨1 - 6e-11, 1 + 6e-11, 1, fun _ => 0, 0⟩ : St).eup -
        (⟨1 - 6e-11, 1 + 6e-11, 1, fun _ => 0, 0⟩ : St).elw ∧
    loopGo 5 1 (1 / 12) (harmonicV 5 5) 2 1000 (0 + 1 + 1)
        ⟨1 - 6e-11, 1 + 6e-11, 1, fun _ => 0, 0⟩ 0 =
      .ok (passCore 5 1 (1 / 12) (harmonicV 5 5) 2 1000
        ⟨1 - 6e-11, 1 + 6e-11, 1, fun _ => 0, 0⟩
        (iclOf (1 / 12) (harmonicV 5 5)
          ((⟨1 - 6e-11, 1 + 6e-11, 1, fun _ => 0, 0⟩ : St).e) 5).toNat, 0 + 1) ∧
    (passCore 5 1 (1 / 12) (harmonicV 5 5) 2 1000
        ⟨1 - 6e-11, 1 + 6e-11, 1, fun _ => 0, 0⟩
        (iclOf (1 / 12) (harmonicV 5 5)
          ((⟨1 - 6e-11, 1 + 6e-11, 1, fun _ => 0, 0⟩ : St).e) 5).toNat).e ≠ 1 := by
  have h := claim_C10 5 1 (1 / 12) (harmonicV 5 5) 2
    ⟨1 - 6e-11, 1 + 6e-11, 1, fun _ => 0, 0⟩ 0 0
    (by norm_num [iclOf, iclAux, fpert, fraw, signDiff, harmonicV, harmonicX])
    (by norm_num [iclOf, iclAux, fpert, fraw, signDiff, harmonicV, harmonicX])
    (by norm_num [iclOf, iclAux, fpert, fraw, signDiff, harmonicV, harmonicX,
      nctOf, ncrossOf, ncrossAux, yOutAux, y0Of, y1Of, fnumOf])
    (by norm_num) (by norm_num) (by norm_num) (by norm_num) (by norm_num)
  exact ⟨by norm_num, h.1, h.2.2.2.1⟩

end Harmonic

end
